import Mathlib

/-!
Verification development for the wtftw tiling window manager core:
the focus zipper (`Stack`), the layout algebra (`Layout` with its
decorators), the `Workspace`/`Workspaces` aggregate, and the binary
space partition subdivision.  The repository ships only
`no_borders_layout.rs`, `config.rs` and the workspace test; the
remaining core (stack, workspaces, layouts) is modelled from the
specification, as noted on each definition.
-/

namespace Wtftw

/-- Opaque window identifier (integer handle). -/
abbrev Window := Nat

/-- Screen rectangle `{x, y, width, height}` in pixels, width/height ≥ 0. -/
structure Rectangle where
  x : Nat
  y : Nat
  width : Nat
  height : Nat
deriving DecidableEq, Repr

/-- Spatial direction, used for navigation and BSP tree edits. -/
inductive Direction where
  | Up | Down | Left | Right
deriving DecidableEq, Repr

/-- Modelled from the spec: the `LayoutMessage` tagged command set (§3). -/
inductive LayoutMessage where
  | Increase | Decrease
  | IncreaseSlave | DecreaseSlave
  | IncreaseMaster | DecreaseMaster
  | IncreaseGap | DecreaseGap
  | Next | Prev
  | TreeRotate | TreeSwap
  | TreeExpandTowards (d : Direction)
  | TreeShrinkFrom (d : Direction)
  | Hide
deriving DecidableEq, Repr

/-- Modelled from the spec: the focus-centered zipper over window
identifiers, `{focus, up, down}`, with `up` and `down` ordered
nearest-to-focus first (§3).  The missing source file is
`core/src/core/stack.rs`. -/
structure Stack where
  focus : Window
  up : List Window
  down : List Window
deriving DecidableEq, Repr

namespace Stack

/-- Constructor mirroring `Stack::new(focus, up, down)` as used by the
repository's test `workspace_contains`. -/
def new (focus : Window) (up down : List Window) : Stack := ⟨focus, up, down⟩

/-- The full visible order `reverse(up) ++ [focus] ++ down` (§3). -/
def integrate (s : Stack) : List Window := s.up.reverse ++ s.focus :: s.down

/-- Swap the two sides of the zipper (helper used to define the
downward operations symmetrically to the upward ones). -/
def rev (s : Stack) : Stack := ⟨s.focus, s.down, s.up⟩

/-- Modelled from the spec: rotate focus one position backwards through
the circular `reverse(up)++[focus]++down` order (§4.1): when `up` is
nonempty the nearest upper neighbour takes focus; otherwise focus wraps
to the far end of `down`. -/
def focus_up : Stack → Stack
  | ⟨f, u :: us, d⟩ => ⟨u, us, f :: d⟩
  | ⟨f, [], d⟩ =>
    match d.reverse with
    | [] => ⟨f, [], []⟩
    | x :: xs => ⟨x, xs ++ [f], []⟩

/-- Modelled from the spec: rotate focus one position forwards through
the circular order (§4.1), the mirror image of `focus_up`. -/
def focus_down (s : Stack) : Stack := (focus_up s.rev).rev

/-- Modelled from the spec: exchange the focused element with its upper
neighbour, focus staying on the moved element; wraps circularly when
`up` is empty (§4.1). -/
def swap_up : Stack → Stack
  | ⟨f, u :: us, d⟩ => ⟨f, us, u :: d⟩
  | ⟨f, [], d⟩ => ⟨f, d.reverse, []⟩

/-- Modelled from the spec: exchange the focused element with its lower
neighbour, the mirror image of `swap_up` (§4.1). -/
def swap_down (s : Stack) : Stack := (swap_up s.rev).rev

/-- Modelled from the spec: move the focused element to the front of
the visible order, keeping it focused (§4.1). -/
def swap_master (s : Stack) : Stack :=
  match s.up.reverse with
  | [] => s
  | x :: xs => ⟨s.focus, [], xs ++ x :: s.down⟩

/-- Modelled from the spec: insert a window as the new focus, the
previous focus becoming its nearest lower neighbour (§4.1). -/
def insert (w : Window) (s : Stack) : Stack := ⟨w, s.up, s.focus :: s.down⟩

/-- Modelled from the spec: remove the elements failing the predicate;
when the focused element fails, focus moves to the nearest surviving
neighbour, preferring `down` over `up`; `none` when nothing survives
(§4.1). -/
def filter (p : Window → Bool) (s : Stack) : Option Stack :=
  match (s.focus :: s.down).filter p with
  | f :: ds => some ⟨f, s.up.filter p, ds⟩
  | [] =>
    match s.up.filter p with
    | f :: us => some ⟨f, us, []⟩
    | [] => none

/-- Modelled from the spec: membership — focus, or present in up/down
(§4.1). -/
def contains (w : Window) (s : Stack) : Bool :=
  s.focus == w || s.up.contains w || s.down.contains w

/-- The data-model invariant of §3: the focus never appears in `up` or
in `down`. -/
def Invariant (s : Stack) : Prop := s.focus ∉ s.up ∧ s.focus ∉ s.down

instance (s : Stack) : Decidable s.Invariant := by
  unfold Invariant; exact inferInstance

end Stack

/-- A point `(px, py)` lies in a rectangle when it is inside the
half-open pixel box `[x, x+width) × [y, y+height)`. -/
def InRect (px py : Nat) (r : Rectangle) : Prop :=
  r.x ≤ px ∧ px < r.x + r.width ∧ r.y ≤ py ∧ py < r.y + r.height

instance (px py : Nat) (r : Rectangle) : Decidable (InRect px py r) := by
  unfold InRect; exact inferInstance

/-- Modelled from the spec: the BSP subdivision (§4.2).  The tree is
rebuilt from scratch for the current window sequence: insertion order
determines leaf placement left-to-right / top-to-bottom, the split axis
alternating with depth, each split dividing both the window sequence
and the extent in half.  The missing source file is
`core/src/layout/binary_space_partition.rs`. -/
def bspSubdivide (depth : Nat) (ws : List Window) (r : Rectangle) :
    List (Window × Rectangle) :=
  match ws with
  | [] => []
  | [w] => [(w, r)]
  | w1 :: w2 :: rest =>
    let l := w1 :: w2 :: rest
    let k := l.length / 2
    if depth % 2 == 0 then
      bspSubdivide (depth + 1) (l.take k) ⟨r.x, r.y, r.width / 2, r.height⟩ ++
      bspSubdivide (depth + 1) (l.drop k)
        ⟨r.x + r.width / 2, r.y, r.width - r.width / 2, r.height⟩
    else
      bspSubdivide (depth + 1) (l.take k) ⟨r.x, r.y, r.width, r.height / 2⟩ ++
      bspSubdivide (depth + 1) (l.drop k)
        ⟨r.x, r.y + r.height / 2, r.width, r.height - r.height / 2⟩
termination_by ws.length
decreasing_by
  all_goals simp [List.length_take, List.length_drop]
  all_goals omega

/-- Modelled from the spec: `BinarySpacePartition::apply` rebuilt from
scratch on the current window sequence (§4.2). -/
def bspApply (ws : List Window) (screen : Rectangle) : List (Window × Rectangle) :=
  bspSubdivide 0 ws screen

/-- Modelled from the spec: shrink a rectangle by `g` pixels on every
side, recentring it within the original rectangle (§4.2, Gap). -/
def shrinkRect (g : Nat) (r : Rectangle) : Rectangle :=
  ⟨r.x + g, r.y + g, r.width - 2 * g, r.height - 2 * g⟩

/-- Modelled from the spec: swap the x/y and width/height axes of a
rectangle (§4.2, Mirror). -/
def mirrorRect (r : Rectangle) : Rectangle := ⟨r.y, r.x, r.height, r.width⟩

/-- Modelled from the spec: Mirror swaps Left/Right for Up/Down before
forwarding directional messages (§4.2). -/
def mirrorDirection : Direction → Direction
  | .Up => .Left
  | .Down => .Right
  | .Left => .Up
  | .Right => .Down

/-- Directional messages get their direction mirrored; others pass
through unchanged. -/
def mirrorMessage : LayoutMessage → LayoutMessage
  | .TreeExpandTowards d => .TreeExpandTowards (mirrorDirection d)
  | .TreeShrinkFrom d => .TreeShrinkFrom (mirrorDirection d)
  | m => m

/-- Modelled from the spec: the fixed step by which Gap adjusts its
margin (a configuration-level constant, §9). -/
def gapStep : Nat := 1

/-- Modelled from the spec: the closed set of Layout variants used by
the repository's default configuration (§4.2): `Full`,
`BinarySpacePartition`, and the decorators Gap, AvoidStruts, Mirror,
WithBorders and LayoutCollection.  The missing source files are under
`core/src/layout/`. -/
inductive Layout where
  | full : Layout
  | bsp : Layout
  | gap (g : Nat) (inner : Layout) : Layout
  | avoidStruts (dirs : List Direction) (inner : Layout) : Layout
  | mirror (inner : Layout) : Layout
  | withBorders (border : Nat) (inner : Layout) : Layout
  | collection (layouts : List Layout) (index : Nat) : Layout
deriving Repr

namespace Layout

/-- Modelled from the spec: `apply(windows, screen)` for each variant
(§4.2).  `Full` places every window at the full screen; Gap shrinks
each inner rectangle; Mirror transposes the screen and every produced
rectangle; WithBorders does not alter geometry; AvoidStruts reduces
the screen by externally reported struts — an external input (§6),
modelled here as zero reservation; LayoutCollection delegates to the
layout at its current index. -/
def apply : Layout → List Window → Rectangle → List (Window × Rectangle)
  | .full, ws, r => ws.map (fun w => (w, r))
  | .bsp, ws, r => bspApply ws r
  | .gap g inner, ws, r =>
    (inner.apply ws r).map (fun p => (p.1, shrinkRect g p.2))
  | .avoidStruts _ inner, ws, r => inner.apply ws r
  | .mirror inner, ws, r =>
    (inner.apply ws (mirrorRect r)).map (fun p => (p.1, mirrorRect p.2))
  | .withBorders _ inner, ws, r => inner.apply ws r
  | .collection ls i, ws, r =>
    match h : ls[i]? with
    | some l => l.apply ws r
    | none => []
termination_by l => sizeOf l
decreasing_by
  all_goals simp_wf
  all_goals first
  | omega
  | · have hm : l ∈ ls := by
        have := List.getElem?_eq_some.mp h
        obtain ⟨hlt, hget⟩ := this
        exact hget ▸ ls.getElem_mem hlt
      have := List.sizeOf_lt_of_mem hm
      omega

/-- Modelled from the spec: `handle_message` for each variant (§4.2).
`Full` handles nothing; Gap handles `IncreaseGap`/`DecreaseGap` (step
`gapStep`, floored at 0) and forwards the rest; AvoidStruts and
WithBorders forward everything; Mirror mirrors directional messages
before forwarding; LayoutCollection handles `Next`/`Prev` by advancing
its index circularly and forwards every other message to the current
layout only.  The BSP tree-edit messages mutate internal tree state
that no claim examines; the rebuilt-from-scratch `apply` above is the
modelled behaviour and `bsp` is modelled as handling no messages. -/
def handle_message : Layout → LayoutMessage → Option Layout
  | .full, _ => none
  | .bsp, _ => none
  | .gap g inner, m =>
    match m with
    | .IncreaseGap => some (.gap (g + gapStep) inner)
    | .DecreaseGap => some (.gap (g - gapStep) inner)
    | _ => (inner.handle_message m).map (.gap g)
  | .avoidStruts dirs inner, m =>
    (inner.handle_message m).map (.avoidStruts dirs)
  | .mirror inner, m =>
    (inner.handle_message (mirrorMessage m)).map .mirror
  | .withBorders b inner, m =>
    (inner.handle_message m).map (.withBorders b)
  | .collection ls i, m =>
    match m with
    | .Next => some (.collection ls ((i + 1) % ls.length))
    | .Prev => some (.collection ls ((i + ls.length - 1) % ls.length))
    | _ =>
      match h : ls[i]? with
      | some l => (l.handle_message m).map (fun l2 => .collection (ls.set i l2) i)
      | none => none
termination_by l => sizeOf l
decreasing_by
  all_goals simp_wf
  all_goals first
  | omega
  | · have hm : l ∈ ls := by
        have := List.getElem?_eq_some.mp h
        obtain ⟨hlt, hget⟩ := this
        exact hget ▸ ls.getElem_mem hlt
      have := List.sizeOf_lt_of_mem hm
      omega

end Layout

/-- `WithBordersLayout::new(border, layout)`: modelled from the spec —
the missing source file is `core/src/layout/with_borders_layout.rs`;
the decorator carries a border width and wraps the inner layout. -/
def WithBordersLayout.new (border : Nat) (layout : Layout) : Layout :=
  Layout.withBorders border layout

/-- `NoBordersLayout::new(layout)` translated from
`core/src/layout/no_borders_layout.rs`: it constructs a
`WithBordersLayout` with border width 0. -/
def NoBordersLayout.new (layout : Layout) : Layout :=
  WithBordersLayout.new 0 layout

/-- Modelled from the spec: a workspace `{id, tag, layout, optional
stack}` (§3).  The missing source file is
`core/src/core/workspace.rs`. -/
structure Workspace where
  id : Nat
  tag : String
  layout : Layout
  stack : Option Stack

namespace Workspace

/-- Constructor mirroring `Workspace::new(id, tag, layout, stack)` as
used by the repository's test `workspace_contains`. -/
def new (id : Nat) (tag : String) (layout : Layout) (stack : Option Stack) :
    Workspace := ⟨id, tag, layout, stack⟩

/-- Modelled from the spec: `contains` delegates to the Stack, false
when there is no stack (§4.3). -/
def contains (w : Window) (ws : Workspace) : Bool :=
  match ws.stack with
  | some s => s.contains w
  | none => false

/-- Modelled from the spec: `add` inserts the window into the Stack
(creating a singleton Stack when absent) (§4.3). -/
def add (w : Window) (ws : Workspace) : Workspace :=
  { ws with stack := some (match ws.stack with
      | some s => s.insert w
      | none => ⟨w, [], []⟩) }

/-- Modelled from the spec: `remove` filters the window out of the
Stack; removing the last window leaves the Stack absent (§4.3). -/
def remove (w : Window) (ws : Workspace) : Workspace :=
  { ws with stack := ws.stack.bind (Stack.filter (fun x => !(x == w))) }

/-- Modelled from the spec: `send_message` delegates to
`layout.handle_message`, swapping in the replacement layout when one
is returned and leaving the Workspace unchanged otherwise (§4.3). -/
def send_message (m : LayoutMessage) (ws : Workspace) : Workspace :=
  match ws.layout.handle_message m with
  | some l => { ws with layout := l }
  | none => ws

end Workspace

/-- Modelled from the spec: the multi-screen aggregate — a
screen→workspace binding for each active physical screen and a hidden
pool (§3).  The missing source file is `core/src/core/workspaces.rs`. -/
structure Workspaces where
  current : List (Nat × Workspace)
  hidden : List Workspace

namespace Workspaces

/-- All workspaces, shown first, then hidden. -/
def allWorkspaces (wss : Workspaces) : List Workspace :=
  wss.current.map (fun e => e.2) ++ wss.hidden

/-- The workspace currently bound to a screen, if the screen is
active. -/
def lookup (wss : Workspaces) (screen : Nat) : Option Workspace :=
  (wss.current.find? (fun e => e.1 == screen)).map (fun e => e.2)

/-- Modelled from the spec: `switch_to_workspace(screen, tag)` (§4.4).
When `tag` is already shown on some screen the two screens' shown
workspaces are swapped (unchanged when that screen is `screen`
itself); when `tag` is in the hidden pool it is swapped with the
workspace bound to `screen`; when `tag` does not exist, or `screen` is
not an active screen, the aggregate is returned unchanged. -/
def switch_to_workspace (wss : Workspaces) (screen : Nat) (tag : String) :
    Workspaces :=
  match wss.current.find? (fun e => e.2.tag == tag) with
  | some et =>
    match wss.current.find? (fun e => e.1 == screen) with
    | some es =>
      { wss with current := wss.current.map (fun e =>
          if e.1 == screen then (e.1, et.2)
          else if e.1 == et.1 then (e.1, es.2)
          else e) }
    | none => wss
  | none =>
    match wss.hidden.find? (fun w => w.tag == tag) with
    | some wh =>
      match wss.current.find? (fun e => e.1 == screen) with
      | some es =>
        { current := wss.current.map (fun e =>
            if e.1 == screen then (e.1, wh) else e),
          hidden := es.2 :: wss.hidden.eraseP (fun w => w.tag == tag) }
      | none => wss
    | none => wss

/-- Modelled from the spec: `move_window_to_workspace(window, tag)`
removes the window from whichever workspace contains it and adds it to
the workspace with `tag`; fails silently (returns unchanged) when the
window is not found or the tag does not exist (§4.4). -/
def move_window_to_workspace (wss : Workspaces) (w : Window) (tag : String) :
    Workspaces :=
  if (wss.allWorkspaces.any (fun ws => ws.tag == tag)) &&
     (wss.allWorkspaces.any (fun ws => ws.contains w)) then
    let update := fun (ws : Workspace) =>
      if ws.tag == tag then (ws.remove w).add w else ws.remove w
    { current := wss.current.map (fun e => (e.1, update e.2)),
      hidden := wss.hidden.map update }
  else wss

end Workspaces

/-- Two placements are pixel-disjoint: no point lies in both
rectangles. -/
def DisjointRects (a b : Window × Rectangle) : Prop :=
  ∀ px py, ¬(InRect px py a.2 ∧ InRect px py b.2)

/-- Send one layout message, keeping the layout unchanged when the
message is not handled (the dispatch discipline of §4.3). -/
def sendMessage (m : LayoutMessage) (l : Layout) : Layout :=
  (l.handle_message m).getD l

/-- Send the same layout message `n` times in sequence. -/
def sendMessageN (m : LayoutMessage) : Nat → Layout → Layout
  | 0, l => l
  | n + 1, l => sendMessageN m n (sendMessage m l)

/-! ## Helper lemmas about the Stack zipper -/

theorem Stack.rev_rev (s : Stack) : s.rev.rev = s := rfl

theorem Stack.integrate_rev (s : Stack) :
    s.rev.integrate = s.integrate.reverse := by
  obtain ⟨f, u, d⟩ := s
  simp [Stack.integrate, Stack.rev]

/-- Rotating focus upwards does not change the visible window order. -/
theorem Stack.integrate_focus_up (s : Stack) :
    (Stack.focus_up s).integrate = s.integrate := by
  obtain ⟨f, u, d⟩ := s
  cases u with
  | cons x xs => simp [Stack.focus_up, Stack.integrate]
  | nil =>
    cases hd : d.reverse with
    | nil =>
      have hdnil : d = [] := by simpa using congrArg List.reverse hd
      subst hdnil
      simp [Stack.focus_up, Stack.integrate]
    | cons x xs =>
      have hdd : d = xs.reverse ++ [x] := by
        simpa using congrArg List.reverse hd
      subst hdd
      simp [Stack.focus_up, Stack.integrate]

/-- Rotating focus downwards does not change the visible window order. -/
theorem Stack.integrate_focus_down (s : Stack) :
    (Stack.focus_down s).integrate = s.integrate := by
  have h1 := Stack.integrate_rev (Stack.focus_up s.rev)
  have h2 := Stack.integrate_focus_up s.rev
  have h3 := Stack.integrate_rev s
  simp only [Stack.focus_down, h1, h2, h3, List.reverse_reverse]

/-- Swapping the focused window upwards permutes the visible order. -/
theorem Stack.integrate_swap_up_perm (s : Stack) :
    (Stack.swap_up s).integrate.Perm s.integrate := by
  obtain ⟨f, u, d⟩ := s
  cases u with
  | cons x xs =>
    simp only [Stack.swap_up, Stack.integrate, List.reverse_cons,
      List.append_assoc, List.singleton_append]
    exact (List.perm_append_left_iff xs.reverse).mpr (List.Perm.swap x f d)
  | nil =>
    simp only [Stack.swap_up, Stack.integrate, List.reverse_reverse,
      List.reverse_nil, List.nil_append]
    exact List.perm_append_singleton f d

/-- Swapping the focused window downwards permutes the visible order. -/
theorem Stack.integrate_swap_down_perm (s : Stack) :
    (Stack.swap_down s).integrate.Perm s.integrate := by
  have h1 := Stack.integrate_rev (Stack.swap_up s.rev)
  have h2 := Stack.integrate_swap_up_perm s.rev
  have h3 := Stack.integrate_rev s
  rw [h3] at h2
  rw [Stack.swap_down, h1]
  exact (List.reverse_perm _).trans (h2.trans (List.reverse_perm _))

/-- Promoting the focused window to master permutes the visible order. -/
theorem Stack.integrate_swap_master_perm (s : Stack) :
    (Stack.swap_master s).integrate.Perm s.integrate := by
  obtain ⟨f, u, d⟩ := s
  cases hu : u.reverse with
  | nil => simp [Stack.swap_master, hu]
  | cons x xs =>
    have huu : u = xs.reverse ++ [x] := by
      simpa using congrArg List.reverse hu
    subst huu
    simp only [Stack.swap_master, hu, Stack.integrate, List.reverse_append,
      List.reverse_reverse, List.reverse_cons, List.reverse_nil,
      List.nil_append, List.singleton_append, List.cons_append]
    exact (List.Perm.cons f List.perm_middle).trans
      ((List.Perm.swap x f (xs ++ d)).trans
        (List.Perm.cons x List.perm_middle.symm))

/-- Inserting a window adds it to the visible order. -/
theorem Stack.integrate_insert_perm (w : Window) (s : Stack) :
    (Stack.insert w s).integrate.Perm (w :: s.integrate) := by
  obtain ⟨f, u, d⟩ := s
  simp only [Stack.insert, Stack.integrate]
  exact List.perm_middle

/-- When `filter` produces a stack, its visible order is exactly the
filtered visible order of the input. -/
theorem Stack.integrate_filter (p : Window → Bool) (s s' : Stack)
    (h : Stack.filter p s = some s') :
    s'.integrate = s.integrate.filter p := by
  obtain ⟨f, u, d⟩ := s
  simp only [Stack.filter] at h
  cases hfd : (f :: d).filter p with
  | cons x ds =>
    rw [hfd] at h
    cases h
    simp [Stack.integrate, List.filter_append, List.filter_reverse, hfd]
  | nil =>
    rw [hfd] at h
    cases hfu : u.filter p with
    | nil => rw [hfu] at h; cases h
    | cons x us =>
      rw [hfu] at h
      cases h
      simp [Stack.integrate, List.filter_append, List.filter_reverse, hfd, hfu]

/-- Distinctness of the visible order forces the §3 invariant. -/
theorem Stack.invariant_of_nodup {s : Stack} (h : s.integrate.Nodup) :
    s.Invariant := by
  obtain ⟨f, u, d⟩ := s
  rw [Stack.integrate, List.nodup_append] at h
  obtain ⟨hu, hfd, hdisj⟩ := h
  have hf_not_d : f ∉ d := (List.nodup_cons.mp hfd).1
  refine ⟨fun hf => ?_, hf_not_d⟩
  exact hdisj (List.mem_reverse.mpr hf) (List.mem_cons_self f d)

/-! ## Claim theorems about the Stack zipper -/

/-- C2 counterexample: as stated for every Stack, the invariant claim
fails — inserting a window that is already present puts the new focus
into `down` (here) or leaves a duplicate in `up`; the input Stack
`⟨1, [2], []⟩` itself satisfies the §3 invariant. -/
theorem stack_invariant_claim_false :
    ¬ (Stack.insert 2 (Stack.new 1 [2] [])).Invariant := by
  decide

/-- C2 (amended): on a Stack whose visible order
`reverse(up) ++ [focus] ++ down` has pairwise-distinct windows, the
operations `focus_up`, `focus_down`, `swap_up`, `swap_down` and
`swap_master` preserve the invariant that the focus appears in neither
`up` nor `down`; `insert` preserves it when the inserted window is not
already present; and `filter` preserves it whenever it returns a
Stack. -/
theorem stack_operations_preserve_invariant (s : Stack)
    (h : s.integrate.Nodup) :
    (Stack.focus_up s).Invariant ∧ (Stack.focus_down s).Invariant ∧
    (Stack.swap_up s).Invariant ∧ (Stack.swap_down s).Invariant ∧
    (Stack.swap_master s).Invariant ∧
    (∀ w, w ∉ s.integrate → (Stack.insert w s).Invariant) ∧
    (∀ (p : Window → Bool) (s' : Stack),
      Stack.filter p s = some s' → s'.Invariant) := by
  refine ⟨?_, ?_, ?_, ?_, ?_, ?_, ?_⟩
  · exact Stack.invariant_of_nodup ((Stack.integrate_focus_up s).symm ▸ h)
  · exact Stack.invariant_of_nodup ((Stack.integrate_focus_down s).symm ▸ h)
  · exact Stack.invariant_of_nodup ((Stack.integrate_swap_up_perm s).symm.nodup h)
  · exact Stack.invariant_of_nodup ((Stack.integrate_swap_down_perm s).symm.nodup h)
  · exact Stack.invariant_of_nodup ((Stack.integrate_swap_master_perm s).symm.nodup h)
  · intro w hw
    refine Stack.invariant_of_nodup ((Stack.integrate_insert_perm w s).symm.nodup ?_)
    exact List.nodup_cons.mpr ⟨hw, h⟩
  · intro p s' hs'
    refine Stack.invariant_of_nodup ?_
    rw [Stack.integrate_filter p s s' hs']
    exact h.filter p

/-- C2 witness: the amended preservation theorem applied to the
concrete distinct Stack `⟨42, [2,3], [4,5,6]⟩`. -/
theorem stack_operations_preserve_invariant_witness :
    (Stack.focus_up (Stack.new 42 [2, 3] [4, 5, 6])).Invariant ∧
    (Stack.swap_master (Stack.new 42 [2, 3] [4, 5, 6])).Invariant := by
  have h := stack_operations_preserve_invariant (Stack.new 42 [2, 3] [4, 5, 6])
    (by decide)
  exact ⟨h.1, h.2.2.2.2.1⟩

/-- C3: rotating focus up then down (and down then up) restores the
original Stack, for every Stack (a Stack is non-empty by
construction: it always carries a focus). -/
theorem focus_up_focus_down_inverse (s : Stack) :
    Stack.focus_down (Stack.focus_up s) = s ∧
    Stack.focus_up (Stack.focus_down s) = s := by
  obtain ⟨f, u, d⟩ := s
  constructor
  · cases u with
    | cons x xs => simp [Stack.focus_up, Stack.focus_down, Stack.rev]
    | nil =>
      cases hd : d.reverse with
      | nil =>
        have hdnil : d = [] := by simpa using congrArg List.reverse hd
        subst hdnil
        simp [Stack.focus_up, Stack.focus_down, Stack.rev]
      | cons x xs =>
        have hdd : d = xs.reverse ++ [x] := by
          simpa using congrArg List.reverse hd
        subst hdd
        simp [Stack.focus_up, Stack.focus_down, Stack.rev]
  · cases d with
    | cons y ys => simp [Stack.focus_up, Stack.focus_down, Stack.rev]
    | nil =>
      cases hu : u.reverse with
      | nil =>
        have hunil : u = [] := by simpa using congrArg List.reverse hu
        subst hunil
        simp [Stack.focus_up, Stack.focus_down, Stack.rev]
      | cons x xs =>
        have huu : u = xs.reverse ++ [x] := by
          simpa using congrArg List.reverse hu
        subst huu
        simp [Stack.focus_up, Stack.focus_down, Stack.rev]

/-- C4: `filter` returns `none` exactly when no element of the visible
order survives; when it returns a Stack, that Stack's visible order is
exactly the filtered visible order of the input (so precisely the
failing elements were removed, in order), the focus is kept when it
survives, and otherwise the new focus is the nearest surviving
neighbour, preferring the `down` side over the `up` side. -/
theorem stack_filter_spec (p : Window → Bool) (s : Stack) :
    (Stack.filter p s = none ↔ s.integrate.filter p = []) ∧
    (∀ s', Stack.filter p s = some s' →
      s'.integrate = s.integrate.filter p ∧
      (p s.focus = true → s'.focus = s.focus) ∧
      (p s.focus = false →
        (s.down.filter p ++ s.up.filter p).head? = some s'.focus)) := by
  obtain ⟨f, u, d⟩ := s
  constructor
  · simp only [Stack.filter, Stack.integrate, List.filter_append,
      List.filter_reverse]
    cases hfd : (f :: d).filter p with
    | cons x ds => simp [hfd]
    | nil =>
      cases hfu : u.filter p with
      | nil => simp [hfd, hfu]
      | cons x us => simp [hfd, hfu]
  · intro s' hs'
    refine ⟨Stack.integrate_filter p _ s' hs', ?_, ?_⟩
    · intro hpf
      simp only [Stack.filter, List.filter_cons, hpf, if_pos] at hs'
      cases hs'
      rfl
    · intro hpf
      simp only [Stack.filter, List.filter_cons, hpf] at hs'
      cases hfd : d.filter p with
      | cons x ds =>
        rw [hfd] at hs'
        cases hs'
        simp [hfd]
      | nil =>
        rw [hfd] at hs'
        cases hfu : u.filter p with
        | nil => rw [hfu] at hs'; cases hs'
        | cons x us =>
          rw [hfu] at hs'
          cases hs'
          simp [hfd, hfu]

/-- C4 witness: filtering out the focused window 42 of
`⟨42, [2,3], [4,5,6]⟩` keeps exactly the surviving order and focuses
the nearest `down` survivor 4. -/
theorem stack_filter_spec_witness :
    (Stack.new 4 [2, 3] [5, 6]).integrate =
      ((Stack.new 42 [2, 3] [4, 5, 6]).integrate).filter (fun w => w != 42) := by
  have h := (stack_filter_spec (fun w => w != 42)
    (Stack.new 42 [2, 3] [4, 5, 6])).2 (Stack.new 4 [2, 3] [5, 6]) (by rfl)
  exact h.1

/-! ## The BSP subdivision partitions the screen -/

/-- Main inductive lemma: on a non-empty window sequence, the BSP
subdivision yields one placement per window, every produced rectangle
lies inside the input rectangle, the rectangles are pairwise disjoint,
and every pixel of the input rectangle is covered. -/
theorem bspSubdivide_partition :
    ∀ (n d : Nat) (ws : List Window) (r : Rectangle),
      ws.length ≤ n → ws ≠ [] →
      (bspSubdivide d ws r).length = ws.length ∧
      (∀ pr ∈ bspSubdivide d ws r, ∀ px py, InRect px py pr.2 → InRect px py r) ∧
      List.Pairwise DisjointRects (bspSubdivide d ws r) ∧
      (∀ px py, InRect px py r → ∃ pr ∈ bspSubdivide d ws r, InRect px py pr.2) := by
  intro n
  induction n with
  | zero =>
    intro d ws r hlen hne
    cases ws with
    | nil => exact absurd rfl hne
    | cons a l => simp at hlen
  | succ n IH =>
    intro d ws r hlen hne
    match ws with
    | [] => exact absurd rfl hne
    | [w] =>
      refine ⟨by simp [bspSubdivide], ?_, ?_, ?_⟩
      · intro pr hm px py hin
        simp only [bspSubdivide, List.mem_singleton] at hm
        subst hm
        exact hin
      · simp [bspSubdivide]
      · intro px py hin
        exact ⟨(w, r), by simp [bspSubdivide], hin⟩
    | w1 :: w2 :: rest =>
      have hlen2 : (w1 :: w2 :: rest).length = rest.length + 2 := by simp
      set l : List Window := w1 :: w2 :: rest with hl
      set k : Nat := l.length / 2 with hk
      have hkbound : 1 ≤ k ∧ k < l.length := by
        rw [hk, hlen2]; omega
      have htlen : (l.take k).length = k := by
        simp only [List.length_take]
        omega
      have hdlen : (l.drop k).length = l.length - k := by
        simp only [List.length_drop]
      have htne : l.take k ≠ [] := by
        intro hcon
        rw [hcon] at htlen
        simp at htlen
        omega
      have hdne : l.drop k ≠ [] := by
        intro hcon
        rw [hcon] at hdlen
        simp at hdlen
        omega
      have htle : (l.take k).length ≤ n := by rw [htlen]; omega
      have hdle : (l.drop k).length ≤ n := by rw [hdlen]; omega
      cases hb : (d % 2 == 0) with
      | true =>
        have hunf : bspSubdivide d l r =
            bspSubdivide (d + 1) (l.take k) ⟨r.x, r.y, r.width / 2, r.height⟩ ++
            bspSubdivide (d + 1) (l.drop k)
              ⟨r.x + r.width / 2, r.y, r.width - r.width / 2, r.height⟩ := by
          conv_lhs => rw [hl, bspSubdivide]
          rw [← hl, ← hk, hb]
          simp
        set rl : Rectangle := ⟨r.x, r.y, r.width / 2, r.height⟩ with hrl
        set rr : Rectangle := ⟨r.x + r.width / 2, r.y, r.width - r.width / 2, r.height⟩ with hrr
        obtain ⟨la, ca, pa, ua⟩ := IH (d + 1) (l.take k) rl htle htne
        obtain ⟨lb, cb, pb, ub⟩ := IH (d + 1) (l.drop k) rr hdle hdne
        have hsubl : ∀ px py, InRect px py rl → InRect px py r := by
          intro px py h
          simp only [hrl, InRect] at h ⊢
          omega
        have hsubr : ∀ px py, InRect px py rr → InRect px py r := by
          intro px py h
          simp only [hrr, InRect] at h ⊢
          omega
        rw [hunf]
        refine ⟨?_, ?_, ?_, ?_⟩
        · rw [List.length_append, la, lb, htlen, hdlen]
          omega
        · intro pr hm px py hin
          rcases List.mem_append.mp hm with hma | hmb
          · exact hsubl px py (ca pr hma px py hin)
          · exact hsubr px py (cb pr hmb px py hin)
        · refine List.pairwise_append.mpr ⟨pa, pb, ?_⟩
          intro a ha b hbm
          intro px py hcon
          obtain ⟨hina, hinb⟩ := hcon
          have h1 := ca a ha px py hina
          have h2 := cb b hbm px py hinb
          simp only [hrl, hrr, InRect] at h1 h2
          omega
        · intro px py hin
          by_cases hside : px < r.x + r.width / 2
          · have : InRect px py rl := by
              simp only [hrl, InRect] at hin ⊢
              omega
            obtain ⟨pr, hm, hp⟩ := ua px py this
            exact ⟨pr, List.mem_append_left _ hm, hp⟩
          · have : InRect px py rr := by
              simp only [hrr, InRect] at hin ⊢
              omega
            obtain ⟨pr, hm, hp⟩ := ub px py this
            exact ⟨pr, List.mem_append_right _ hm, hp⟩
      | false =>
        have hunf : bspSubdivide d l r =
            bspSubdivide (d + 1) (l.take k) ⟨r.x, r.y, r.width, r.height / 2⟩ ++
            bspSubdivide (d + 1) (l.drop k)
              ⟨r.x, r.y + r.height / 2, r.width, r.height - r.height / 2⟩ := by
          conv_lhs => rw [hl, bspSubdivide]
          rw [← hl, ← hk, hb]
          simp
        set rl : Rectangle := ⟨r.x, r.y, r.width, r.height / 2⟩ with hrl
        set rr : Rectangle := ⟨r.x, r.y + r.height / 2, r.width, r.height - r.height / 2⟩ with hrr
        obtain ⟨la, ca, pa, ua⟩ := IH (d + 1) (l.take k) rl htle htne
        obtain ⟨lb, cb, pb, ub⟩ := IH (d + 1) (l.drop k) rr hdle hdne
        have hsubl : ∀ px py, InRect px py rl → InRect px py r := by
          intro px py h
          simp only [hrl, InRect] at h ⊢
          omega
        have hsubr : ∀ px py, InRect px py rr → InRect px py r := by
          intro px py h
          simp only [hrr, InRect] at h ⊢
          omega
        rw [hunf]
        refine ⟨?_, ?_, ?_, ?_⟩
        · rw [List.length_append, la, lb, htlen, hdlen]
          omega
        · intro pr hm px py hin
          rcases List.mem_append.mp hm with hma | hmb
          · exact hsubl px py (ca pr hma px py hin)
          · exact hsubr px py (cb pr hmb px py hin)
        · refine List.pairwise_append.mpr ⟨pa, pb, ?_⟩
          intro a ha b hbm
          intro px py hcon
          obtain ⟨hina, hinb⟩ := hcon
          have h1 := ca a ha px py hina
          have h2 := cb b hbm px py hinb
          simp only [hrl, hrr, InRect] at h1 h2
          omega
        · intro px py hin
          by_cases hside : py < r.y + r.height / 2
          · have : InRect px py rl := by
              simp only [hrl, InRect] at hin ⊢
              omega
            obtain ⟨pr, hm, hp⟩ := ua px py this
            exact ⟨pr, List.mem_append_left _ hm, hp⟩
          · have : InRect px py rr := by
              simp only [hrr, InRect] at hin ⊢
              omega
            obtain ⟨pr, hm, hp⟩ := ub px py this
            exact ⟨pr, List.mem_append_right _ hm, hp⟩

/-- C1 counterexample: with zero input windows `apply` returns zero
placements, whose union cannot equal a non-empty screen rectangle —
the coverage clause of the claim fails at `ws = []`,
`screen = ⟨0, 0, 100, 100⟩`. -/
theorem bsp_apply_claim_false_for_zero_windows :
    ¬ (∀ px py, InRect px py ⟨0, 0, 100, 100⟩ →
        ∃ pr ∈ bspApply [] ⟨0, 0, 100, 100⟩, InRect px py pr.2) := by
  intro h
  obtain ⟨pr, hm, _⟩ := h 0 0 (by decide)
  simp [bspApply, bspSubdivide] at hm

/-- C1 (amended): for every non-empty window sequence (n ≥ 1) and
every screen rectangle, the BSP `apply` returns exactly n placements,
their rectangles are pairwise disjoint, and their union equals the
screen rectangle (the BSP itself applies no gaps). -/
theorem bsp_apply_partitions_screen (ws : List Window) (screen : Rectangle)
    (hne : ws ≠ []) :
    (bspApply ws screen).length = ws.length ∧
    List.Pairwise DisjointRects (bspApply ws screen) ∧
    (∀ px py, InRect px py screen ↔ ∃ pr ∈ bspApply ws screen, InRect px py pr.2) := by
  obtain ⟨hlen, hcont, hpw, hcov⟩ :=
    bspSubdivide_partition ws.length 0 ws screen (le_refl _) hne
  refine ⟨hlen, hpw, fun px py => ⟨hcov px py, ?_⟩⟩
  rintro ⟨pr, hm, hin⟩
  exact hcont pr hm px py hin

/-- C1 witness: the partition theorem applied to three windows on a
100×100 screen. -/
theorem bsp_apply_partitions_screen_witness :
    (bspApply [1, 2, 3] ⟨0, 0, 100, 100⟩).length = 3 := by
  exact (bsp_apply_partitions_screen [1, 2, 3] ⟨0, 0, 100, 100⟩ (by decide)).1

/-! ## LayoutCollection cycling and the decorator layouts -/

theorem sendMessage_next_collection (ls : List Layout) (i : Nat) :
    sendMessage .Next (.collection ls i) =
      .collection ls ((i + 1) % ls.length) := by
  simp [sendMessage, Layout.handle_message]

theorem sendMessage_prev_collection (ls : List Layout) (i : Nat) :
    sendMessage .Prev (.collection ls i) =
      .collection ls ((i + ls.length - 1) % ls.length) := by
  simp [sendMessage, Layout.handle_message]

theorem sendMessageN_next_collection (ls : List Layout) :
    ∀ (n i : Nat), i < ls.length →
      sendMessageN .Next n (.collection ls i) =
        .collection ls ((i + n) % ls.length) := by
  intro n
  induction n with
  | zero =>
    intro i h
    simp [sendMessageN, Nat.mod_eq_of_lt h]
  | succ n IHn =>
    intro i h
    have hk : 0 < ls.length := by omega
    rw [sendMessageN, sendMessage_next_collection,
      IHn ((i + 1) % ls.length) (Nat.mod_lt _ hk)]
    congr 1
    rw [Nat.mod_add_mod]
    congr 1
    omega

/-- C7: for a `LayoutCollection` of k layouts with a valid current
index, sending `Next` k times returns the index (and the whole layout
value) to its start, and `Next`, `Next`, `Prev` equals a single
`Next`. -/
theorem layout_collection_cycles (ls : List Layout) (i : Nat)
    (h : i < ls.length) :
    sendMessageN .Next ls.length (.collection ls i) = .collection ls i ∧
    sendMessage .Prev (sendMessage .Next (sendMessage .Next (.collection ls i))) =
      sendMessage .Next (.collection ls i) := by
  constructor
  · rw [sendMessageN_next_collection ls ls.length i h, Nat.add_mod_right,
      Nat.mod_eq_of_lt h]
  · rw [sendMessage_next_collection, sendMessage_next_collection,
      sendMessage_prev_collection]
    congr 1
    have hk : 1 ≤ ls.length := by omega
    rw [Nat.mod_add_mod]
    have e1 : (i + 1 + 1) % ls.length + ls.length - 1 =
        (i + 1 + 1) % ls.length + (ls.length - 1) := by omega
    rw [e1, Nat.mod_add_mod]
    have e2 : i + 1 + 1 + (ls.length - 1) = (i + 1) + ls.length := by omega
    rw [e2, Nat.add_mod_right]

/-- C7 witness: three layouts starting at index 0 — three `Next`
messages return to index 0, and `Next`, `Next`, `Prev` equals one
`Next` (the §8 example). -/
theorem layout_collection_cycles_witness :
    sendMessageN .Next 3 (.collection [Layout.full, Layout.full, Layout.full] 0) =
      .collection [Layout.full, Layout.full, Layout.full] 0 ∧
    sendMessage .Prev (sendMessage .Next (sendMessage .Next
        (.collection [Layout.full, Layout.full, Layout.full] 0))) =
      sendMessage .Next (.collection [Layout.full, Layout.full, Layout.full] 0) :=
  layout_collection_cycles [Layout.full, Layout.full, Layout.full] 0 (by decide)

/-- C8: the Gap decorator shrinks every rectangle produced by its
inner layout by `g` pixels on each side, recentring it within the
original rectangle (equal margins left/right and top/bottom whenever
the rectangle is large enough), and the default configuration's
`GapLayout::new(8, AvoidStruts(BSP))` on a 100×100 screen with one
window yields `{x:8, y:8, width:84, height:84}`. -/
theorem gap_layout_spec :
    (∀ (g : Nat) (inner : Layout) (ws : List Window) (r : Rectangle),
      (Layout.gap g inner).apply ws r =
        (inner.apply ws r).map (fun p => (p.1, shrinkRect g p.2))) ∧
    (∀ (g : Nat) (r : Rectangle),
      shrinkRect g r = ⟨r.x + g, r.y + g, r.width - 2 * g, r.height - 2 * g⟩) ∧
    (∀ (g : Nat) (r : Rectangle), 2 * g ≤ r.width → 2 * g ≤ r.height →
      (shrinkRect g r).x - r.x =
        (r.x + r.width) - ((shrinkRect g r).x + (shrinkRect g r).width) ∧
      (shrinkRect g r).y - r.y =
        (r.y + r.height) - ((shrinkRect g r).y + (shrinkRect g r).height)) ∧
    (∀ w : Window,
      (Layout.gap 8 (Layout.avoidStruts [Direction.Up, Direction.Down]
          Layout.bsp)).apply [w] ⟨0, 0, 100, 100⟩ = [(w, ⟨8, 8, 84, 84⟩)]) := by
  refine ⟨?_, ?_, ?_, ?_⟩
  · intro g inner ws r
    simp [Layout.apply]
  · intro g r
    rfl
  · intro g r hw hh
    simp only [shrinkRect]
    omega
  · intro w
    simp [Layout.apply, bspApply, bspSubdivide, shrinkRect]

/-- C8 witness: the recentring clause at `g = 8` on the 100×100
screen. -/
theorem gap_layout_spec_witness :
    (shrinkRect 8 ⟨0, 0, 100, 100⟩).x - 0 =
      (0 + 100) - ((shrinkRect 8 ⟨0, 0, 100, 100⟩).x +
        (shrinkRect 8 ⟨0, 0, 100, 100⟩).width) :=
  (gap_layout_spec.2.2.1 8 ⟨0, 0, 100, 100⟩ (by decide) (by decide)).1

/-- C9: `NoBordersLayout::new(L)` is exactly
`WithBordersLayout::new(0, L)` — the same Layout value, hence the same
behaviour on every `apply` and every `handle_message`. -/
theorem no_borders_is_with_borders_zero (l : Layout) :
    NoBordersLayout.new l = WithBordersLayout.new 0 l ∧
    (∀ (ws : List Window) (r : Rectangle),
      (NoBordersLayout.new l).apply ws r = (WithBordersLayout.new 0 l).apply ws r) ∧
    (∀ m, (NoBordersLayout.new l).handle_message m =
      (WithBordersLayout.new 0 l).handle_message m) :=
  ⟨rfl, fun _ _ => rfl, fun _ => rfl⟩

/-- C10: a Workspace contains a window exactly when it has a Stack and
the window is the focus or occurs in `up` or `down`; with no Stack,
`contains` is false for every window. -/
theorem workspace_contains_spec (ws : Workspace) (x : Window) :
    (ws.contains x = true ↔
      ∃ s, ws.stack = some s ∧ (s.focus = x ∨ x ∈ s.up ∨ x ∈ s.down)) ∧
    (ws.stack = none → ws.contains x = false) := by
  constructor
  · cases hs : ws.stack with
    | none => simp [Workspace.contains, hs]
    | some s =>
      simp [Workspace.contains, hs, Stack.contains]
      tauto
  · intro hs
    simp [Workspace.contains, hs]

/-- C10 witness: the repository test's stackless workspace `w2`
contains no window (here window 2), and its workspace `w1` with stack
`⟨42, [2,3], [4,5,6]⟩` contains its focus 42. -/
theorem workspace_contains_spec_witness :
    (Workspace.new 1 "Foo" Layout.full none).contains 2 = false ∧
    (Workspace.new 1 "Foo" Layout.full
      (some (Stack.new 42 [2, 3] [4, 5, 6]))).contains 42 = true := by
  constructor
  · exact (workspace_contains_spec (Workspace.new 1 "Foo" Layout.full none) 2).2 rfl
  · exact (workspace_contains_spec _ 42).1.mpr
      ⟨Stack.new 42 [2, 3] [4, 5, 6], rfl, Or.inl rfl⟩

/-! ## Workspaces: no-op conditions and workspace switching -/

/-- `find?` locates a designated element when it matches and every
other match coincides with it. -/
theorem find?_eq_some_of_unique {α : Type} (p : α → Bool) :
    ∀ (l : List α) (a : α), a ∈ l → p a = true →
      (∀ b ∈ l, p b = true → b = a) → l.find? p = some a := by
  intro l
  induction l with
  | nil =>
    intro a ha
    simp at ha
  | cons b bs IH =>
    intro a ha hpa huniq
    cases hpb : p b with
    | true =>
      have hba : b = a := huniq b (List.mem_cons_self b bs) hpb
      subst hba
      exact List.find?_cons_of_pos bs hpb
    | false =>
      have hab : a ≠ b := by
        intro hcon
        subst hcon
        rw [hpa] at hpb
        cases hpb
      have ha2 : a ∈ bs := by
        rcases List.mem_cons.mp ha with hcon | h2
        · exact absurd hcon hab
        · exact h2
      rw [List.find?_cons_of_neg bs (by simp [hpb])]
      exact IH a ha2 hpa (fun c hc hpc => huniq c (List.mem_cons_of_mem b hc) hpc)

/-- `find?` on a key predicate commutes with a key-preserving map of
the screen bindings. -/
theorem find?_key_map (l : List (Nat × Workspace))
    (f : Nat × Workspace → Nat × Workspace)
    (hf : ∀ e, (f e).1 = e.1) (t : Nat) :
    (l.map f).find? (fun e => e.1 == t) =
      (l.find? (fun e => e.1 == t)).map f := by
  induction l with
  | nil => rfl
  | cons e es IH =>
    simp only [List.map_cons]
    cases hp : (e.1 == t) with
    | true =>
      rw [List.find?_cons_of_pos _ (by simp [hf, hp]),
        List.find?_cons_of_pos _ (by simp [hp])]
      rfl
    | false =>
      rw [List.find?_cons_of_neg _ (by simp [hf]; simpa using hp),
        List.find?_cons_of_neg _ (by simpa using hp)]
      exact IH

/-- C6: the no-op conditions are total and return the unchanged state:
focus/swap operations on a singleton stack are the identity; a message
the addressed layout does not handle leaves the Workspace unchanged
(`Full` handles no message at all); moving a window whose tag target
does not exist, or a window contained nowhere, leaves the Workspaces
unchanged; switching to a tag that exists nowhere is the identity, and
switching to a tag already shown never touches the hidden pool.  All
operations are total Lean functions, so each no-op returns a value and
cannot crash. -/
theorem noop_conditions_are_total :
    (∀ f : Window,
      Stack.focus_up ⟨f, [], []⟩ = ⟨f, [], []⟩ ∧
      Stack.focus_down ⟨f, [], []⟩ = ⟨f, [], []⟩ ∧
      Stack.swap_up ⟨f, [], []⟩ = ⟨f, [], []⟩ ∧
      Stack.swap_down ⟨f, [], []⟩ = ⟨f, [], []⟩ ∧
      Stack.swap_master ⟨f, [], []⟩ = ⟨f, [], []⟩) ∧
    (∀ (ws : Workspace) (m : LayoutMessage),
      ws.layout.handle_message m = none → Workspace.send_message m ws = ws) ∧
    (∀ m : LayoutMessage, Layout.full.handle_message m = none) ∧
    (∀ (wss : Workspaces) (w : Window) (tag : String),
      (∀ x ∈ wss.allWorkspaces, x.tag ≠ tag) →
      Workspaces.move_window_to_workspace wss w tag = wss) ∧
    (∀ (wss : Workspaces) (w : Window) (tag : String),
      (∀ x ∈ wss.allWorkspaces, x.contains w = false) →
      Workspaces.move_window_to_workspace wss w tag = wss) ∧
    (∀ (wss : Workspaces) (screen : Nat) (tag : String),
      (∀ x ∈ wss.allWorkspaces, x.tag ≠ tag) →
      Workspaces.switch_to_workspace wss screen tag = wss) ∧
    (∀ (wss : Workspaces) (screen : Nat) (tag : String),
      (wss.current.find? (fun e => e.2.tag == tag)).isSome →
      (Workspaces.switch_to_workspace wss screen tag).hidden = wss.hidden) := by
  refine ⟨?_, ?_, ?_, ?_, ?_, ?_, ?_⟩
  · intro f
    refine ⟨rfl, rfl, rfl, rfl, rfl⟩
  · intro ws m h
    simp [Workspace.send_message, h]
  · intro m
    simp [Layout.handle_message]
  · intro wss w tag h
    have h1 : wss.allWorkspaces.any (fun x => x.tag == tag) = false := by
      simp only [List.any_eq_false]
      intro x hx
      simpa using h x hx
    simp [Workspaces.move_window_to_workspace, h1]
  · intro wss w tag h
    have h1 : wss.allWorkspaces.any (fun x => x.contains w) = false := by
      simp only [List.any_eq_false]
      intro x hx
      simp [h x hx]
    simp [Workspaces.move_window_to_workspace, h1]
  · intro wss screen tag h
    have h1 : wss.current.find? (fun e => e.2.tag == tag) = none := by
      rw [List.find?_eq_none]
      intro e he
      have : e.2 ∈ wss.allWorkspaces := by
        simp only [Workspaces.allWorkspaces, List.mem_append, List.mem_map]
        exact Or.inl ⟨e, he, rfl⟩
      simpa using h e.2 this
    have h2 : wss.hidden.find? (fun x => x.tag == tag) = none := by
      rw [List.find?_eq_none]
      intro x hx
      have : x ∈ wss.allWorkspaces := by
        simp [Workspaces.allWorkspaces, hx]
      simpa using h x this
    simp [Workspaces.switch_to_workspace, h1, h2]
  · intro wss screen tag h
    rw [Option.isSome_iff_exists] at h
    obtain ⟨et, het⟩ := h
    rw [Workspaces.switch_to_workspace, het]
    cases hes : wss.current.find? (fun e => e.1 == screen) with
    | none => rfl
    | some es => rfl

/-- C6 witness: the no-op theorem at concrete inputs — moving window 5
to the nonexistent tag workspace leaves the aggregate unchanged. -/
theorem noop_conditions_are_total_witness :
    Workspaces.move_window_to_workspace
      ⟨[(0, Workspace.new 0 "A" Layout.full none)], []⟩ 5 "B" =
      ⟨[(0, Workspace.new 0 "A" Layout.full none)], []⟩ := by
  refine noop_conditions_are_total.2.2.2.1 _ 5 "B" ?_
  intro x hx
  simp only [Workspaces.allWorkspaces, List.map_cons, List.map_nil,
    List.append_nil, List.mem_singleton] at hx
  subst hx
  decide

/-- `lookup` after a key-preserving rewrite of the screen bindings. -/
theorem lookup_mk_map (cur : List (Nat × Workspace)) (hid : List Workspace)
    (f : Nat × Workspace → Nat × Workspace) (hf : ∀ e, (f e).1 = e.1) (t : Nat) :
    (Workspaces.mk (cur.map f) hid).lookup t =
      ((cur.find? (fun e => e.1 == t)).map f).map (fun e => e.2) := by
  simp only [Workspaces.lookup]
  rw [find?_key_map cur f hf t]

/-- C5 counterexample: switching screen 0 to tag "B", which is shown
on screen 1, is not a no-op — §4.4's final clause swaps the two
screens' shown workspaces, so screen 0 now shows the workspace tagged
"B" instead of "A". -/
theorem switch_to_visible_tag_not_noop :
    (Workspaces.switch_to_workspace
      ⟨[(0, Workspace.new 0 "A" Layout.full none),
        (1, Workspace.new 1 "B" Layout.full none)], []⟩ 0 "B").current.map
      (fun e => e.2.tag) ≠
    (⟨[(0, Workspace.new 0 "A" Layout.full none),
       (1, Workspace.new 1 "B" Layout.full none)], []⟩ : Workspaces).current.map
      (fun e => e.2.tag) := by
  decide

/-- C5 (amended): under the §3 uniqueness invariants (each screen
bound once, each tag held by exactly one workspace),
`switch_to_workspace(screen, tag)` behaves as follows.  If `tag` is
shown on `screen` itself, the Workspaces are unchanged.  If `tag` is
shown on a different screen s2, the two screens' shown workspaces are
swapped, the hidden pool is untouched, and every other screen is
unchanged.  If `tag` is hidden, the workspace bound to `screen` is
swapped with the hidden workspace matching `tag`: `screen` now shows
it, it leaves the hidden pool, the previously shown workspace enters
the hidden pool, and every other screen is unchanged. -/
theorem switch_to_workspace_spec (wss : Workspaces) (screen : Nat) (tag : String)
    (hkeys : (wss.current.map (fun e => e.1)).Nodup)
    (htags : ((wss.current.map (fun e => e.2.tag)) ++
      wss.hidden.map Workspace.tag).Nodup) :
    (∀ w, (screen, w) ∈ wss.current → w.tag = tag →
      Workspaces.switch_to_workspace wss screen tag = wss) ∧
    (∀ s2 w2 wscr, (s2, w2) ∈ wss.current → w2.tag = tag → s2 ≠ screen →
      (screen, wscr) ∈ wss.current →
      (Workspaces.switch_to_workspace wss screen tag).hidden = wss.hidden ∧
      (Workspaces.switch_to_workspace wss screen tag).lookup screen = some w2 ∧
      (Workspaces.switch_to_workspace wss screen tag).lookup s2 = some wscr ∧
      (∀ t, t ≠ screen → t ≠ s2 →
        (Workspaces.switch_to_workspace wss screen tag).lookup t = wss.lookup t)) ∧
    (∀ wh wscr, wh ∈ wss.hidden → wh.tag = tag → (screen, wscr) ∈ wss.current →
      (Workspaces.switch_to_workspace wss screen tag).lookup screen = some wh ∧
      wscr ∈ (Workspaces.switch_to_workspace wss screen tag).hidden ∧
      wh ∉ (Workspaces.switch_to_workspace wss screen tag).hidden ∧
      (∀ t, t ≠ screen →
        (Workspaces.switch_to_workspace wss screen tag).lookup t = wss.lookup t)) := by
  obtain ⟨htagsC, htagsH, hdisj⟩ := List.nodup_append.mp htags
  have hkeyinj := List.inj_on_of_nodup_map hkeys
  have htaginj := List.inj_on_of_nodup_map htagsC
  have htaginjH := List.inj_on_of_nodup_map htagsH
  refine ⟨?_, ?_, ?_⟩
  · -- tag shown on `screen` itself: no-op
    intro w hw htw
    have hfind_tag : wss.current.find? (fun e => e.2.tag == tag) = some (screen, w) := by
      apply find?_eq_some_of_unique _ _ _ hw (by simp [htw])
      intro b hb hpb
      apply htaginj hb hw
      simp only [beq_iff_eq] at hpb
      simpa [htw] using hpb
    have hfind_scr : wss.current.find? (fun e => e.1 == screen) = some (screen, w) := by
      apply find?_eq_some_of_unique _ _ _ hw (by simp)
      intro b hb hpb
      exact hkeyinj hb hw (by simpa using hpb)
    have hswitch : Workspaces.switch_to_workspace wss screen tag =
        Workspaces.mk (wss.current.map (fun e =>
          if e.1 == screen then (e.1, w)
          else if e.1 == screen then (e.1, w) else e)) wss.hidden := by
      rw [Workspaces.switch_to_workspace, hfind_tag, hfind_scr]
    rw [hswitch]
    have hfix : ∀ e ∈ wss.current,
        (if e.1 == screen then (e.1, w)
         else if e.1 == screen then (e.1, w) else e) = e := by
      intro e he
      by_cases h1 : e.1 = screen
      · have he2 : e = (screen, w) := hkeyinj he hw (by simpa using h1)
        rw [he2]
        simp
      · simp [h1]
    rw [List.map_congr_left hfix]
    simp
  · -- tag shown on another screen s2: swap the two screens
    intro s2 w2 wscr h2mem h2tag h2ne hscrmem
    have hfind_tag : wss.current.find? (fun e => e.2.tag == tag) = some (s2, w2) := by
      apply find?_eq_some_of_unique _ _ _ h2mem (by simp [h2tag])
      intro b hb hpb
      apply htaginj hb h2mem
      simp only [beq_iff_eq] at hpb
      simpa [h2tag] using hpb
    have hfind_scr : wss.current.find? (fun e => e.1 == screen) = some (screen, wscr) := by
      apply find?_eq_some_of_unique _ _ _ hscrmem (by simp)
      intro b hb hpb
      exact hkeyinj hb hscrmem (by simpa using hpb)
    have hfind_s2 : wss.current.find? (fun e => e.1 == s2) = some (s2, w2) := by
      apply find?_eq_some_of_unique _ _ _ h2mem (by simp)
      intro b hb hpb
      exact hkeyinj hb h2mem (by simpa using hpb)
    have hswitch : Workspaces.switch_to_workspace wss screen tag =
        Workspaces.mk (wss.current.map (fun e =>
          if e.1 == screen then (e.1, w2)
          else if e.1 == s2 then (e.1, wscr) else e)) wss.hidden := by
      rw [Workspaces.switch_to_workspace, hfind_tag, hfind_scr]
    have hg : ∀ e : Nat × Workspace,
        ((fun e => if e.1 == screen then (e.1, w2)
          else if e.1 == s2 then (e.1, wscr) else e) e).1 = e.1 := by
      intro e
      dsimp only
      by_cases h1 : e.1 = screen
      · simp [h1]
      · by_cases h2 : e.1 = s2 <;> simp [h1, h2, h2ne]
    rw [hswitch]
    refine ⟨rfl, ?_, ?_, ?_⟩
    · rw [lookup_mk_map _ _ _ hg screen, hfind_scr]
      simp
    · rw [lookup_mk_map _ _ _ hg s2, hfind_s2]
      simp [h2ne]
    · intro t ht1 ht2
      rw [lookup_mk_map _ _ _ hg t]
      simp only [Workspaces.lookup]
      cases hft : wss.current.find? (fun e => e.1 == t) with
      | none => rfl
      | some e =>
        have het : e.1 = t := by simpa using List.find?_some hft
        simp [het, ht1, ht2, Ne.symm]
  · -- tag hidden: swap with the hidden workspace
    intro wh wscr hwhmem hwhtag hscrmem
    have htag_mem_hidden : tag ∈ wss.hidden.map Workspace.tag := by
      exact hwhtag ▸ List.mem_map_of_mem Workspace.tag hwhmem
    have hfind_tagC : wss.current.find? (fun e => e.2.tag == tag) = none := by
      rw [List.find?_eq_none]
      intro e he
      simp only [beq_iff_eq]
      intro hcon
      exact hdisj (hcon ▸ List.mem_map_of_mem (fun e => e.2.tag) he) htag_mem_hidden
    have hfind_tagH : wss.hidden.find? (fun x => x.tag == tag) = some wh := by
      apply find?_eq_some_of_unique _ _ _ hwhmem (by simp [hwhtag])
      intro b hb hpb
      apply htaginjH hb hwhmem
      simp only [beq_iff_eq] at hpb
      simpa [hwhtag] using hpb
    have hfind_scr : wss.current.find? (fun e => e.1 == screen) = some (screen, wscr) := by
      apply find?_eq_some_of_unique _ _ _ hscrmem (by simp)
      intro b hb hpb
      exact hkeyinj hb hscrmem (by simpa using hpb)
    have hswitch : Workspaces.switch_to_workspace wss screen tag =
        Workspaces.mk (wss.current.map (fun e =>
          if e.1 == screen then (e.1, wh) else e))
          (wscr :: wss.hidden.eraseP (fun w => w.tag == tag)) := by
      rw [Workspaces.switch_to_workspace, hfind_tagC, hfind_tagH, hfind_scr]
    have hg : ∀ e : Nat × Workspace,
        ((fun e => if e.1 == screen then (e.1, wh) else e) e).1 = e.1 := by
      intro e
      dsimp only
      by_cases h1 : e.1 = screen <;> simp [h1]
    rw [hswitch]
    refine ⟨?_, List.mem_cons_self _ _, ?_, ?_⟩
    · rw [lookup_mk_map _ _ _ hg screen, hfind_scr]
      simp
    · intro hmem
      rcases List.mem_cons.mp hmem with hcon | hmem2
      · have hmt : wscr.tag ∈ wss.current.map (fun e => e.2.tag) :=
          List.mem_map_of_mem _ hscrmem
        have hwt : wscr.tag = tag := by rw [← hcon, hwhtag]
        rw [hwt] at hmt
        exact hdisj hmt htag_mem_hidden
      · obtain ⟨a, l₁, l₂, hl₁, hpa, hled, hle⟩ :=
          List.exists_of_eraseP hwhmem (p := fun w => w.tag == tag)
            (by simp [hwhtag])
        rw [hle] at hmem2
        rcases List.mem_append.mp hmem2 with hin1 | hin2
        · exact hl₁ wh hin1 (by simp [hwhtag])
        · rw [hled] at htagsH
          have hnd : (l₁.map Workspace.tag ++
              a.tag :: l₂.map Workspace.tag).Nodup := by
            simpa using htagsH
          have h2 := (List.nodup_append.mp hnd).2.1
          have h3 := (List.nodup_cons.mp h2).1
          apply h3
          have hat : a.tag = tag := by simpa using hpa
          rw [hat]
          exact hwhtag ▸ List.mem_map_of_mem Workspace.tag hin2
    · intro t ht1
      rw [lookup_mk_map _ _ _ hg t]
      simp only [Workspaces.lookup]
      cases hft : wss.current.find? (fun e => e.1 == t) with
      | none => rfl
      | some e =>
        have het : e.1 = t := by simpa using List.find?_some hft
        simp [het, ht1]

/-- C5 witness: with screen 0 showing tag "A" and tag "B" hidden,
switching screen 0 to "B" puts the "B" workspace on screen 0. -/
theorem switch_to_workspace_spec_witness :
    (Workspaces.switch_to_workspace
      ⟨[(0, Workspace.new 0 "A" Layout.full none)],
       [Workspace.new 1 "B" Layout.full none]⟩ 0 "B").lookup 0 =
      some (Workspace.new 1 "B" Layout.full none) := by
  have h := (switch_to_workspace_spec
    ⟨[(0, Workspace.new 0 "A" Layout.full none)],
     [Workspace.new 1 "B" Layout.full none]⟩ 0 "B" (by decide) (by decide)).2.2
    (Workspace.new 1 "B" Layout.full none) (Workspace.new 0 "A" Layout.full none)
    (by simp) rfl (by simp)
  exact h.1

end Wtftw
